import Mathlib

/-!
Verification of extractPeptidesFromFasta.py.

The script extracts tryptic peptides from protein sequence records, computes
each distinct peptide mass once through a cache, filters by a mass window and
emits one output row per retained (sequence, peptide) pair.

Masses in the source are floating point numbers whose constants all have at
most eight decimal digits; the embedding represents every mass exactly as a
natural number of 1e-8 dalton units, which preserves sums and strict
comparisons exactly. The pyteomics components used by the script
(parser.cleave, the expasy trypsin rule, parser.parse, mass.calculate_mass)
are not part of the repository sources, so they are modelled from the spec;
everything else is translated directly from src/extractPeptidesFromFasta.py.
-/

namespace ExtractPeptides

/-- Modelled from the spec: the Residue Mass Table (spec sections 2 and 4.2),
which is not under src (it lives in the pyteomics dependency). Static mapping
from amino-acid symbol to monoisotopic mass contribution, for the twenty
standard residues, in 1e-8 dalton units. -/
def aa_table : List (Char × Nat) :=
  [(('G'), 5702146000), (('A'), 7103711000), (('S'), 8703203000),
   (('P'), 9705276000), (('V'), 9906841000), (('T'), 10104768000),
   (('C'), 10300919000), (('L'), 11308406000), (('I'), 11308406000),
   (('N'), 11404293000), (('D'), 11502694000), (('Q'), 12805858000),
   (('K'), 12809496000), (('E'), 12904259000), (('M'), 13104049000),
   (('H'), 13705891000), (('F'), 14706841000), (('R'), 15610111000),
   (('Y'), 16306333000), (('W'), 18607931000)]

/-- Lookup of a residue symbol in the Residue Mass Table. -/
def aa_mass (c : Char) : Option Nat :=
  (aa_table.find? (fun e => e.1 == c)).map (fun e => e.2)

/-- Modelled from the spec: an unmodified N-terminus contributes a hydrogen
mass (spec section 4.2), in 1e-8 dalton units. -/
def h_term_mass : Nat := 100782503

/-- Modelled from the spec: an unmodified C-terminus contributes a hydroxyl
mass (spec section 4.2), in 1e-8 dalton units. -/
def oh_term_mass : Nat := 1700273965

/-- Symbol of a parsed composition: a residue or an explicit terminal group
marker (spec section 3, Peptide Data). -/
inductive CompSymbol
  | res (c : Char)
  | hTerm
  | ohTerm
deriving DecidableEq

/-- Failure modes of the embedded program. -/
inductive Err
  | unknownResidue (c : Char)
  | emptyDescription (d : String)
  | keyError (p : List Char)
deriving DecidableEq

/-- Modelled from the spec: parser.parse with show_unmodified_termini keeps the
termini, so the parsed composition is the residue list bracketed by explicit
N-terminal and C-terminal markers (spec section 4.2 and src line 111). -/
def parse_termini (p : List Char) : List CompSymbol :=
  CompSymbol.hTerm :: (p.map CompSymbol.res ++ [CompSymbol.ohTerm])

/-- Mass of one composition symbol; a residue outside the table is an
UnknownResidue failure (spec section 4.2). -/
def symbol_mass : CompSymbol → Except Err Nat
  | CompSymbol.res c =>
      match aa_mass c with
      | some m => Except.ok m
      | none => Except.error (Err.unknownResidue c)
  | CompSymbol.hTerm => Except.ok h_term_mass
  | CompSymbol.ohTerm => Except.ok oh_term_mass

/-- Modelled from the spec: mass.calculate_mass sums the mass table value for
every symbol in the parsed composition, terminal markers included (spec
section 4.2). -/
def calculate_mass : List CompSymbol → Except Err Nat
  | [] => Except.ok 0
  | s :: rest =>
      match symbol_mass s with
      | Except.error e => Except.error e
      | Except.ok m =>
          match calculate_mass rest with
          | Except.error e => Except.error e
          | Except.ok r => Except.ok (m + r)

/-- Peptide Data as stored in the cache (spec section 3, src lines 106 to 116). -/
structure PeptideData where
  sequence : List Char
  parsed_sequence : List CompSymbol
  mass : Nat
deriving DecidableEq

/-- Embeds get_peptide_data (src lines 106 to 116): parse the peptide with
explicit termini, compute its mass, return the record. -/
def get_peptide_data (p : List Char) : Except Err PeptideData :=
  match calculate_mass (parse_termini p) with
  | Except.error e => Except.error e
  | Except.ok m => Except.ok (PeptideData.mk p (parse_termini p) m)

/-- Modelled from the spec: the trypsin Cleavage Rule used at src line 133, a
predicate telling whether proteolysis cuts immediately after position i; it
cuts after K or R unless the next residue is P, with no exception check at the
final position (spec sections 2, 4.1 and the glossary). -/
def cut_after (s : List Char) (i : Nat) : Bool :=
  match s[i]? with
  | some c =>
      (c == ('K') || c == ('R')) &&
        (match s[i+1]? with
         | some d => d != ('P')
         | none => true)
  | none => false

/-- Modelled from the spec: ordered list of cut positions, always including the
implicit boundaries at sequence start and sequence end (spec section 4.1
step 1). -/
def cut_positions (s : List Char) : List Nat :=
  (0 :: (((List.range s.length).filter (fun i => cut_after s i)).map
    (fun i => i + 1) ++ [s.length])).dedup

/-- Modelled from the spec: the elementary fragments bounded by consecutive cut
positions (spec section 4.1 step 2). -/
def fragments (s : List Char) : List (List Char) :=
  let cuts := cut_positions s
  (cuts.zip cuts.tail).map (fun ab => (s.take ab.2).drop ab.1)

/-- Modelled from the spec: parser.cleave (used at src lines 131 to 135, not
under src). Every contiguous run of 1 to missed plus 1 elementary fragments is
concatenated into a peptide; empty peptides are excluded and the distinct
peptide strings are returned (spec section 4.1 steps 3 and 4). -/
def cleave (s : List Char) (missed : Nat) : List (List Char) :=
  let frags := fragments s
  let n := frags.length
  (((List.range n).flatMap (fun i =>
      (List.range (missed + 1)).filterMap (fun k =>
        if i + k < n then some (((frags.drop i).take (k + 1)).flatten)
        else none))).filter (fun p => p ≠ [])).dedup

/-- Python whitespace for str.split. -/
def is_py_space (c : Char) : Bool :=
  c == (' ') || c == ('\t') || c == ('\n') || c == ('\r') ||
    c == ('\x0b') || c == ('\x0c')

/-- Helper for py_tokens, accumulating the current token in reverse. -/
def py_tokens_aux : List Char → List Char → List (List Char)
  | [], cur => if cur = [] then [] else [cur.reverse]
  | c :: rest, cur =>
      if is_py_space c then
        if cur = [] then py_tokens_aux rest []
        else cur.reverse :: py_tokens_aux rest []
      else py_tokens_aux rest (c :: cur)

/-- Embeds description.split() from src line 127: the whitespace-delimited
tokens of the description, with empty tokens dropped. -/
def py_tokens (s : List Char) : List (List Char) :=
  py_tokens_aux s []

/-- Protein Sequence Record as built by read_fasta_sequences (src lines 122 to
138). -/
structure SequenceRecord where
  sequence : List Char
  id : List Char
  peptides : List (List Char)
deriving DecidableEq

/-- Embeds the loop body of read_fasta_sequences (src lines 122 to 138): the
first whitespace token of the description is the id (taking the first element
of an empty token list raises IndexError, modelled as an error) and the
peptides are the trypsin cleavage of the sequence with one missed cleavage. -/
def mk_sequence_record (d : String) (s : String) : Except Err SequenceRecord :=
  match py_tokens d.toList with
  | [] => Except.error (Err.emptyDescription d)
  | t :: _ => Except.ok (SequenceRecord.mk s.toList t (cleave s.toList 1))

/-- Embeds read_fasta_sequences (src lines 119 to 140) over the list of
(description, sequence) pairs of one file; fasta.read, the parser producing
those pairs, is an external collaborator (spec section 1). -/
def read_fasta_sequences : List (String × String) → Except Err (List SequenceRecord)
  | [] => Except.ok []
  | ds :: rest =>
      match mk_sequence_record ds.1 ds.2 with
      | Except.error e => Except.error e
      | Except.ok r =>
          match read_fasta_sequences rest with
          | Except.error e => Except.error e
          | Except.ok rs => Except.ok (r :: rs)

/-- Embeds the file loop of main (src lines 73 to 75): per-file record lists in
command line order. -/
def read_many : List (List (String × String)) → Except Err (List (List SequenceRecord))
  | [] => Except.ok []
  | f :: fs =>
      match read_fasta_sequences f with
      | Except.error e => Except.error e
      | Except.ok r =>
          match read_many fs with
          | Except.error e => Except.error e
          | Except.ok rs => Except.ok (r :: rs)

/-- The peptides_db dictionary of main, as an association list. -/
abbrev Db := List (List Char × PeptideData)

/-- Dictionary lookup in peptides_db. -/
def db_lookup : Db → List Char → Option PeptideData
  | [], _ => none
  | e :: rest, p => if e.1 = p then some e.2 else db_lookup rest p

/-- The peptides of all sequence records in iteration order, as visited by both
nested loops of main (src lines 79 to 80 and 86 to 87). -/
def all_peptides (records : List SequenceRecord) : List (List Char) :=
  records.flatMap (fun r => r.peptides)

/-- Embeds the database loop of main (src lines 78 to 82): for each peptide not
yet in the db, invoke get_peptide_data and store the result. The second
component records the peptides for which get_peptide_data was invoked. -/
def build_db_aux : List (List Char) → Db → List (List Char) →
    Except Err (Db × List (List Char))
  | [], db, calls => Except.ok (db, calls)
  | p :: ps, db, calls =>
      match db_lookup db p with
      | some _ => build_db_aux ps db calls
      | none =>
          match get_peptide_data p with
          | Except.error e => Except.error e
          | Except.ok d => build_db_aux ps ((p, d) :: db) (p :: calls)

/-- The peptides_db built by main over all records (src lines 78 to 82). -/
def build_db (records : List SequenceRecord) : Except Err (Db × List (List Char)) :=
  build_db_aux (all_peptides records) [] []

/-- Hard coded lower mass bound from src line 69, in 1e-8 dalton units. -/
def MIN_MASS : Nat := 60000000000

/-- Hard coded upper mass bound from src line 70, in 1e-8 dalton units. -/
def MAX_MASS : Nat := 350000000000

/-- Output Record (spec section 3, src lines 90 to 94). -/
structure OutputRecord where
  sequence_id : List Char
  peptide : List Char
  peptide_mass : Nat
deriving DecidableEq

/-- Embeds the inner peptide loop of the assembly phase (src lines 87 to 94):
peptides_db[peptide] (a missing key would raise KeyError) and the strict
mass window test MAX_MASS > mass > MIN_MASS. -/
def rows_for_peptides (sid : List Char) (db : Db) :
    List (List Char) → Except Err (List OutputRecord)
  | [] => Except.ok []
  | p :: ps =>
      match db_lookup db p with
      | none => Except.error (Err.keyError p)
      | some d =>
          match rows_for_peptides sid db ps with
          | Except.error e => Except.error e
          | Except.ok rest =>
              Except.ok ((if MAX_MASS > d.mass ∧ d.mass > MIN_MASS
                then [OutputRecord.mk sid p d.mass] else []) ++ rest)

/-- Embeds the outer record loop of the assembly phase (src lines 85 to 94). -/
def assemble (db : Db) : List SequenceRecord → Except Err (List OutputRecord)
  | [] => Except.ok []
  | r :: rs =>
      match rows_for_peptides r.id db r.peptides with
      | Except.error e => Except.error e
      | Except.ok here =>
          match assemble db rs with
          | Except.error e => Except.error e
          | Except.ok rest => Except.ok (here ++ rest)

/-- Embeds main (src lines 64 to 100) after argument parsing. The minmass and
maxmass parameters correspond to args.minmass and args.maxmass: the source
parses them but never reads them, filtering with the hard coded MIN_MASS and
MAX_MASS of lines 69 and 70, and so does this embedding. -/
def main (files : List (List (String × String))) (minmass maxmass : Nat) :
    Except Err (List OutputRecord) :=
  match read_many files with
  | Except.error e => Except.error e
  | Except.ok frss =>
      match build_db frss.flatten with
      | Except.error e => Except.error e
      | Except.ok dbc => assemble dbc.1 frss.flatten

/-- One command line argument: a positional file name or an option. -/
inductive CliArg
  | positional (s : String)
  | minmassOpt (q : Nat)
  | maxmassOpt (q : Nat)
deriving DecidableEq

/-- Result of argument parsing (src lines 49 to 59). -/
structure ParsedArgs where
  fasta_files : List String
  minmass : Nat
  maxmass : Nat
deriving DecidableEq

/-- Embeds the argparse configuration of src lines 49 to 59: fasta_files is a
positional argument declared with nargs set to plus, so argparse rejects an
empty positional list as a usage error and exits with status 2 before main
runs; minmass and maxmass take the last occurrence and default to 600.0 and
3500.0 (in 1e-8 dalton units here). -/
def parse_args (argv : List CliArg) : Except Nat ParsedArgs :=
  let files := argv.filterMap
    (fun a => match a with | CliArg.positional s => some s | _ => none)
  let mins := argv.filterMap
    (fun a => match a with | CliArg.minmassOpt q => some q | _ => none)
  let maxs := argv.filterMap
    (fun a => match a with | CliArg.maxmassOpt q => some q | _ => none)
  match files with
  | [] => Except.error 2
  | _ :: _ =>
      Except.ok (ParsedArgs.mk files (mins.getLastD 60000000000)
        (maxs.getLastD 350000000000))

/-- True exactly on successful results. -/
def is_ok {ε α : Type} : Except ε α → Bool
  | Except.ok _ => true
  | Except.error _ => false

/-- Cache free form of the row produced for one (sequence id, peptide) pair:
compute the mass directly and apply the strict window. Used to state the
refinement of the assembly phase, which goes through peptides_db instead. -/
def direct_row (sid : List Char) (p : List Char) : Option OutputRecord :=
  match get_peptide_data p with
  | Except.ok d =>
      if MAX_MASS > d.mass ∧ d.mass > MIN_MASS
      then some (OutputRecord.mk sid p d.mass) else none
  | Except.error _ => none

/-- A db is good when every stored entry is the value get_peptide_data returns
for its key. -/
def db_good (db : Db) : Prop :=
  ∀ p d, db_lookup db p = some d → get_peptide_data p = Except.ok d

/-- The record lists read_many produces on a file list, with the error case
mapped to the empty list; used to name concrete runs in closed statements. -/
def frss_of (files : List (List (String × String))) : List (List SequenceRecord) :=
  match read_many files with
  | Except.ok f => f
  | Except.error _ => []

/-- The flattened sequence records of a run. -/
def recs_of (files : List (List (String × String))) : List SequenceRecord :=
  (frss_of files).flatten

/-- The output rows of a run under the default mass bounds, with the error case
mapped to the empty list. -/
def out_of (files : List (List (String × String))) : List OutputRecord :=
  match main files 60000000000 350000000000 with
  | Except.ok o => o
  | Except.error _ => []

/-- The peptides_db a record list builds, with the error case mapped empty. -/
def db_of (records : List SequenceRecord) : Db :=
  match build_db records with
  | Except.ok dc => dc.1
  | Except.error _ => []

/-- The get_peptide_data invocation list of build_db, error case mapped empty. -/
def calls_of (records : List SequenceRecord) : List (List Char) :=
  match build_db records with
  | Except.ok dc => dc.2
  | Except.error _ => []

/-- The Peptide Data of a peptide, error case mapped to a zero record. -/
def pd_of (p : List Char) : PeptideData :=
  match get_peptide_data p with
  | Except.ok d => d
  | Except.error _ => PeptideData.mk [] [] 0

theorem db_good_nil : db_good [] := by
  intro p d h
  simp [db_lookup] at h

theorem db_good_cons (db : Db) (p : List Char) (d : PeptideData)
    (hg : db_good db) (hp : get_peptide_data p = Except.ok d) :
    db_good ((p, d) :: db) := by
  intro q d2 h
  simp only [db_lookup] at h
  split at h
  · rename_i heq
    injection h with h2
    subst h2
    simp only [← heq]
    exact hp
  · exact hg q d2 h

theorem db_lookup_isSome_cons (e : List Char × PeptideData) (db : Db)
    (q : List Char) (h : (db_lookup db q).isSome = true) :
    (db_lookup (e :: db) q).isSome = true := by
  simp only [db_lookup]
  split <;> simp [h]

theorem build_db_aux_good (ps : List (List Char)) :
    ∀ db calls db2 calls2, db_good db →
      build_db_aux ps db calls = Except.ok (db2, calls2) → db_good db2 := by
  induction ps with
  | nil =>
      intro db calls db2 calls2 hg h
      simp only [build_db_aux, Except.ok.injEq, Prod.mk.injEq] at h
      obtain ⟨h1, _⟩ := h
      subst h1
      exact hg
  | cons p ps ih =>
      intro db calls db2 calls2 hg h
      simp only [build_db_aux] at h
      split at h
      · exact ih _ _ _ _ hg h
      · split at h
        · exact absurd h (by simp)
        · rename_i d hget
          exact ih _ _ _ _ (db_good_cons _ _ _ hg hget) h

theorem build_db_aux_calls_nodup (ps : List (List Char)) :
    ∀ db calls db2 calls2, calls.Nodup →
      (∀ c ∈ calls, (db_lookup db c).isSome = true) →
      build_db_aux ps db calls = Except.ok (db2, calls2) → calls2.Nodup := by
  induction ps with
  | nil =>
      intro db calls db2 calls2 hnd _ h
      simp only [build_db_aux, Except.ok.injEq, Prod.mk.injEq] at h
      obtain ⟨_, h2⟩ := h
      subst h2
      exact hnd
  | cons p ps ih =>
      intro db calls db2 calls2 hnd hin h
      simp only [build_db_aux] at h
      split at h
      · exact ih _ _ _ _ hnd hin h
      · rename_i hlook
        split at h
        · exact absurd h (by simp)
        · rename_i d _
          have hpnot : p ∉ calls := by
            intro hc
            have := hin p hc
            rw [hlook] at this
            simp at this
          refine ih _ _ _ _ (List.nodup_cons.mpr ⟨hpnot, hnd⟩) ?_ h
          intro c hc
          rcases List.mem_cons.mp hc with hcp | hcm
          · subst hcp
            simp [db_lookup]
          · exact db_lookup_isSome_cons _ _ _ (hin c hcm)

theorem build_db_aux_mono (ps : List (List Char)) :
    ∀ db calls db2 calls2 q, (db_lookup db q).isSome = true →
      build_db_aux ps db calls = Except.ok (db2, calls2) →
      (db_lookup db2 q).isSome = true := by
  induction ps with
  | nil =>
      intro db calls db2 calls2 q hq h
      simp only [build_db_aux, Except.ok.injEq, Prod.mk.injEq] at h
      obtain ⟨h1, _⟩ := h
      subst h1
      exact hq
  | cons p ps ih =>
      intro db calls db2 calls2 q hq h
      simp only [build_db_aux] at h
      split at h
      · exact ih _ _ _ _ _ hq h
      · split at h
        · exact absurd h (by simp)
        · exact ih _ _ _ _ _ (db_lookup_isSome_cons _ _ _ hq) h

theorem build_db_aux_complete (ps : List (List Char)) :
    ∀ db calls db2 calls2,
      build_db_aux ps db calls = Except.ok (db2, calls2) →
      ∀ q ∈ ps, (db_lookup db2 q).isSome = true := by
  induction ps with
  | nil =>
      intro db calls db2 calls2 _ q hq
      simp at hq
  | cons p ps ih =>
      intro db calls db2 calls2 h q hq
      rcases List.mem_cons.mp hq with hqp | hqm
      · subst hqp
        simp only [build_db_aux] at h
        split at h
        · rename_i d hlook
          exact build_db_aux_mono ps _ _ _ _ q (by rw [hlook]; rfl) h
        · split at h
          · exact absurd h (by simp)
          · refine build_db_aux_mono ps _ _ _ _ q ?_ h
            simp [db_lookup]
      · simp only [build_db_aux] at h
        split at h
        · exact ih _ _ _ _ h q hqm
        · split at h
          · exact absurd h (by simp)
          · exact ih _ _ _ _ h q hqm

theorem build_db_aux_fails (ps : List (List Char)) :
    ∀ db calls p, p ∈ ps → db_good db →
      is_ok (get_peptide_data p) = false →
      is_ok (build_db_aux ps db calls) = false := by
  induction ps with
  | nil =>
      intro db calls p hp _ _
      simp at hp
  | cons q ps ih =>
      intro db calls p hp hg hbad
      simp only [build_db_aux]
      rcases List.mem_cons.mp hp with hpq | hpm
      · subst hpq
        split
        · rename_i d hlook
          have := hg p d hlook
          rw [this] at hbad
          simp [is_ok] at hbad
        · split
          · simp [is_ok]
          · rename_i d hget
            rw [hget] at hbad
            simp [is_ok] at hbad
      · split
        · exact ih _ _ p hpm hg hbad
        · split
          · simp [is_ok]
          · rename_i d hget
            exact ih _ _ p hpm (db_good_cons _ _ _ hg hget) hbad

theorem build_db_good (records : List SequenceRecord) (db : Db)
    (calls : List (List Char))
    (h : build_db records = Except.ok (db, calls)) : db_good db :=
  build_db_aux_good _ _ _ _ _ db_good_nil h

theorem build_db_complete (records : List SequenceRecord) (db : Db)
    (calls : List (List Char))
    (h : build_db records = Except.ok (db, calls)) :
    ∀ q ∈ all_peptides records, (db_lookup db q).isSome = true :=
  build_db_aux_complete _ _ _ _ _ h

theorem rows_for_peptides_bounds (sid : List Char) (db : Db)
    (ps : List (List Char)) :
    ∀ rows, rows_for_peptides sid db ps = Except.ok rows →
      ∀ r ∈ rows, MIN_MASS < r.peptide_mass ∧ r.peptide_mass < MAX_MASS := by
  induction ps with
  | nil =>
      intro rows h r hr
      simp only [rows_for_peptides, Except.ok.injEq] at h
      subst h
      simp at hr
  | cons p ps ih =>
      intro rows h r hr
      simp only [rows_for_peptides] at h
      split at h
      · exact absurd h (by simp)
      · rename_i d _
        split at h
        · exact absurd h (by simp)
        · rename_i rest hrest
          injection h with h2
          subst h2
          rcases List.mem_append.mp hr with h1 | h1
          · split at h1
            · rename_i hcond
              simp at h1
              subst h1
              exact ⟨hcond.2, hcond.1⟩
            · simp at h1
          · exact ih rest hrest r h1

theorem assemble_bounds (db : Db) (recs : List SequenceRecord) :
    ∀ out, assemble db recs = Except.ok out →
      ∀ r ∈ out, MIN_MASS < r.peptide_mass ∧ r.peptide_mass < MAX_MASS := by
  induction recs with
  | nil =>
      intro out h r hr
      simp only [assemble, Except.ok.injEq] at h
      subst h
      simp at hr
  | cons rec rs ih =>
      intro out h r hr
      simp only [assemble] at h
      split at h
      · exact absurd h (by simp)
      · rename_i here hhere
        split at h
        · exact absurd h (by simp)
        · rename_i rest hrest
          injection h with h2
          subst h2
          rcases List.mem_append.mp hr with h1 | h1
          · exact rows_for_peptides_bounds _ _ _ here hhere r h1
          · exact ih rest hrest r h1

theorem rows_for_peptides_direct (sid : List Char) (db : Db) (hg : db_good db) :
    ∀ ps : List (List Char), (∀ q ∈ ps, (db_lookup db q).isSome = true) →
      rows_for_peptides sid db ps = Except.ok (ps.filterMap (direct_row sid)) := by
  intro ps
  induction ps with
  | nil => intro _; rfl
  | cons p ps ih =>
      intro hin
      have hp := hin p (List.mem_cons_self p ps)
      cases hlook : db_lookup db p with
      | none =>
          rw [hlook] at hp
          simp at hp
      | some d =>
          have hget := hg p d hlook
          have ihr := ih (fun q hq => hin q (List.mem_cons_of_mem _ hq))
          simp only [rows_for_peptides, hlook, ihr, List.filterMap_cons,
            direct_row, hget]
          split
          · simp
          · simp

theorem assemble_direct (db : Db) (hg : db_good db) :
    ∀ recs : List SequenceRecord,
      (∀ r ∈ recs, ∀ q ∈ r.peptides, (db_lookup db q).isSome = true) →
      assemble db recs =
        Except.ok (recs.flatMap (fun r => r.peptides.filterMap (direct_row r.id))) := by
  intro recs
  induction recs with
  | nil => intro _; rfl
  | cons r rs ih =>
      intro hin
      have h1 := rows_for_peptides_direct r.id db hg r.peptides
        (hin r (List.mem_cons_self r rs))
      have h2 := ih (fun r2 hr2 q hq => hin r2 (List.mem_cons_of_mem _ hr2) q hq)
      simp only [assemble, h1, h2, List.flatMap_cons]

theorem read_many_fails (files : List (List (String × String))) :
    ∀ f ∈ files, is_ok (read_fasta_sequences f) = false →
      is_ok (read_many files) = false := by
  induction files with
  | nil =>
      intro f hf
      simp at hf
  | cons g fs ih =>
      intro f hf hbad
      simp only [read_many]
      rcases List.mem_cons.mp hf with hfg | hfm
      · subst hfg
        split
        · simp [is_ok]
        · rename_i r hr
          rw [hr] at hbad
          simp [is_ok] at hbad
      · split
        · simp [is_ok]
        · split
          · simp [is_ok]
          · rename_i rs hrs
            have := ih f hfm hbad
            rw [hrs] at this
            simp [is_ok] at this

theorem main_parts (files : List (List (String × String))) (mm MM : Nat)
    (out : List OutputRecord) (h : main files mm MM = Except.ok out) :
    ∃ frss dbc, read_many files = Except.ok frss ∧
      build_db frss.flatten = Except.ok dbc ∧
      assemble dbc.1 frss.flatten = Except.ok out := by
  simp only [main] at h
  split at h
  · exact absurd h (by simp)
  · rename_i frss hr
    split at h
    · exact absurd h (by simp)
    · rename_i dbc hb
      exact ⟨frss, dbc, hr, hb, h⟩

theorem main_fails_of_read (files : List (List (String × String))) (mm MM : Nat)
    (h : is_ok (read_many files) = false) :
    is_ok (main files mm MM) = false := by
  simp only [main]
  split
  · simp [is_ok]
  · rename_i frss hr
    rw [hr] at h
    simp [is_ok] at h

theorem main_fails_of_build (files : List (List (String × String))) (mm MM : Nat)
    (frss : List (List SequenceRecord)) (hr : read_many files = Except.ok frss)
    (h : is_ok (build_db frss.flatten) = false) :
    is_ok (main files mm MM) = false := by
  simp only [main]
  split
  · rename_i hr2
    rw [hr] at hr2
    simp at hr2
  · rename_i frss2 hr2
    rw [hr] at hr2
    injection hr2 with h2
    subst h2
    split
    · simp [is_ok]
    · rename_i dbc hb
      rw [hb] at h
      simp [is_ok] at h

theorem py_tokens_aux_ne_nil (s : List Char) :
    ∀ cur t, t ∈ py_tokens_aux s cur → t ≠ [] := by
  induction s with
  | nil =>
      intro cur t ht
      simp only [py_tokens_aux] at ht
      split at ht
      · simp at ht
      · rename_i hcur
        simp only [List.mem_singleton] at ht
        subst ht
        simpa using hcur
  | cons c rest ih =>
      intro cur t ht
      simp only [py_tokens_aux] at ht
      split at ht
      · split at ht
        · exact ih _ _ ht
        · rename_i hcur
          rcases List.mem_cons.mp ht with h1 | h1
          · subst h1
            simpa using hcur
          · exact ih _ _ h1
      · exact ih _ _ ht

theorem py_tokens_blank (s : List Char)
    (hs : ∀ c ∈ s, is_py_space c = true) : py_tokens s = [] := by
  simp only [py_tokens]
  induction s with
  | nil => rfl
  | cons c rest ih =>
      have hc := hs c (List.mem_cons_self c rest)
      simp only [py_tokens_aux, hc, if_true, if_pos rfl]
      exact ih (fun x hx => hs x (List.mem_cons_of_mem _ hx))

theorem cleave_nodup (s : List Char) (m : Nat) : (cleave s m).Nodup := by
  simp only [cleave]
  exact List.nodup_dedup _

theorem mk_record_spec (d s : String) (r : SequenceRecord)
    (h : mk_sequence_record d s = Except.ok r) :
    r.peptides = cleave s.toList 1 ∧ r.id ≠ [] ∧
      (py_tokens d.toList).head? = some r.id := by
  simp only [mk_sequence_record] at h
  split at h
  · exact absurd h (by simp)
  · rename_i t ts heq
    injection h with h2
    subst h2
    refine ⟨rfl, ?_, by rw [heq]; rfl⟩
    exact py_tokens_aux_ne_nil d.toList [] t (by rw [← py_tokens, heq]; exact List.mem_cons_self t ts)

theorem read_records_from_mk (file : List (String × String)) :
    ∀ frs, read_fasta_sequences file = Except.ok frs →
      ∀ r ∈ frs, ∃ ds ∈ file, mk_sequence_record ds.1 ds.2 = Except.ok r := by
  induction file with
  | nil =>
      intro frs h r hr
      simp only [read_fasta_sequences, Except.ok.injEq] at h
      subst h
      simp at hr
  | cons ds rest ih =>
      intro frs h r hr
      simp only [read_fasta_sequences] at h
      split at h
      · exact absurd h (by simp)
      · rename_i r0 hmk
        split at h
        · exact absurd h (by simp)
        · rename_i rs hrs
          injection h with h2
          subst h2
          rcases List.mem_cons.mp hr with h1 | h1
          · subst h1
            exact ⟨ds, List.mem_cons_self ds rest, hmk⟩
          · obtain ⟨ds2, hds2, hmk2⟩ := ih rs hrs r h1
            exact ⟨ds2, List.mem_cons_of_mem _ hds2, hmk2⟩

theorem read_many_peptides_nodup (files : List (List (String × String))) :
    ∀ frss, read_many files = Except.ok frss →
      ∀ r ∈ frss.flatten, r.peptides.Nodup := by
  induction files with
  | nil =>
      intro frss h r hr
      simp only [read_many, Except.ok.injEq] at h
      subst h
      simp at hr
  | cons f fs ih =>
      intro frss h r hr
      simp only [read_many] at h
      split at h
      · exact absurd h (by simp)
      · rename_i frs hread
        split at h
        · exact absurd h (by simp)
        · rename_i rest hrest
          injection h with h2
          subst h2
          simp only [List.flatten_cons] at hr
          rcases List.mem_append.mp hr with h1 | h1
          · obtain ⟨ds, _, hmk⟩ := read_records_from_mk f frs hread r h1
            obtain ⟨hpep, _, _⟩ := mk_record_spec ds.1 ds.2 r hmk
            rw [hpep]
            exact cleave_nodup _ _
          · exact ih rest hrest r h1

theorem read_ok_all (file : List (String × String)) :
    ∀ frs, read_fasta_sequences file = Except.ok frs →
      ∀ ds ∈ file, ∃ r, mk_sequence_record ds.1 ds.2 = Except.ok r := by
  induction file with
  | nil =>
      intro frs _ ds hds
      simp at hds
  | cons ds0 rest ih =>
      intro frs h ds hds
      simp only [read_fasta_sequences] at h
      split at h
      · exact absurd h (by simp)
      · rename_i r0 hmk
        split at h
        · exact absurd h (by simp)
        · rename_i rs hrs
          rcases List.mem_cons.mp hds with h1 | h1
          · subst h1
            exact ⟨r0, hmk⟩
          · exact ih rs hrs ds h1

theorem read_fasta_fails (file : List (String × String)) :
    ∀ ds ∈ file, is_ok (mk_sequence_record ds.1 ds.2) = false →
      is_ok (read_fasta_sequences file) = false := by
  induction file with
  | nil =>
      intro ds hds
      simp at hds
  | cons ds0 rest ih =>
      intro ds hds hbad
      simp only [read_fasta_sequences]
      rcases List.mem_cons.mp hds with h1 | h1
      · subst h1
        split
        · simp [is_ok]
        · rename_i r hr
          rw [hr] at hbad
          simp [is_ok] at hbad
      · split
        · simp [is_ok]
        · split
          · simp [is_ok]
          · rename_i rs hrs
            have := ih ds h1 hbad
            rw [hrs] at this
            simp [is_ok] at this

theorem direct_row_peptide (sid p : List Char) (r : OutputRecord)
    (h : direct_row sid p = some r) : r.peptide = p := by
  simp only [direct_row] at h
  split at h
  · split at h
    · injection h with h2
      subst h2
      rfl
    · exact absurd h (by simp)
  · exact absurd h (by simp)

theorem direct_row_of_ok (sid p : List Char) (d : PeptideData)
    (hget : get_peptide_data p = Except.ok d)
    (h1 : MIN_MASS < d.mass) (h2 : d.mass < MAX_MASS) :
    direct_row sid p = some (OutputRecord.mk sid p d.mass) := by
  simp only [direct_row, hget]
  rw [if_pos ⟨h2, h1⟩]

theorem countP_filterMap_direct (p : List Char) (d : PeptideData)
    (hget : get_peptide_data p = Except.ok d)
    (h1 : MIN_MASS < d.mass) (h2 : d.mass < MAX_MASS) (sid : List Char) :
    ∀ ps : List (List Char),
      (ps.filterMap (direct_row sid)).countP (fun r => decide (r.peptide = p)) =
        ps.countP (fun q => decide (q = p)) := by
  intro ps
  induction ps with
  | nil => rfl
  | cons q ps ih =>
      by_cases hqp : q = p
      · subst hqp
        rw [List.filterMap_cons, direct_row_of_ok sid q d hget h1 h2]
        simp [List.countP_cons, ih]
      · rw [List.filterMap_cons]
        cases hd : direct_row sid q with
        | none => simp [ih, List.countP_cons, hqp]
        | some r =>
            have hrq : r.peptide = q := direct_row_peptide _ _ _ hd
            simp [List.countP_cons, hrq, hqp, ih]

theorem countP_eq_of_nodup (p : List Char) :
    ∀ l : List (List Char), l.Nodup →
      l.countP (fun q => decide (q = p)) = if p ∈ l then 1 else 0 := by
  intro l
  induction l with
  | nil => intro _; simp
  | cons q l ih =>
      intro hnd
      rw [List.countP_cons, ih (List.nodup_cons.mp hnd).2]
      by_cases hqp : q = p
      · subst hqp
        have hp : q ∉ l := (List.nodup_cons.mp hnd).1
        simp [hp]
      · have hpq : ¬ p = q := fun h => hqp h.symm
        simp [List.mem_cons, hpq, hqp]

theorem countP_flatMap_direct (p : List Char) (d : PeptideData)
    (hget : get_peptide_data p = Except.ok d)
    (h1 : MIN_MASS < d.mass) (h2 : d.mass < MAX_MASS) :
    ∀ recs : List SequenceRecord, (∀ r ∈ recs, r.peptides.Nodup) →
      (recs.flatMap (fun r => r.peptides.filterMap (direct_row r.id))).countP
          (fun r => decide (r.peptide = p)) =
        recs.countP (fun rec => decide (p ∈ rec.peptides)) := by
  intro recs
  induction recs with
  | nil => intro _; rfl
  | cons r rs ih =>
      intro hnd
      rw [List.flatMap_cons, List.countP_append,
        countP_filterMap_direct p d hget h1 h2 r.id r.peptides,
        ih (fun x hx => hnd x (List.mem_cons_of_mem _ hx)), List.countP_cons,
        countP_eq_of_nodup p r.peptides (hnd r (List.mem_cons_self r rs))]
      by_cases hmem : p ∈ r.peptides <;> simp [hmem] <;> omega

/-- C1: the claim states that an Output Record is emitted exactly when the
peptide mass lies strictly between the configured minmass and maxmass, so that
non-default bounds change which rows are emitted. The code contradicts this:
main parses args.minmass and args.maxmass but never reads them, filtering with
the hard coded 600.0 and 3500.0 instead. With minmass configured to 1000 the
run on one sequence MKPRK still emits the peptide MKPRK of mass about 658.39,
below the configured bound, and the output is identical to the default-bound
output. Masses are in 1e-8 dalton units. -/
theorem c1_configured_bounds_ignored :
    main [[(("s1"), ("MKPRK"))]] 100000000000 350000000000 =
      Except.ok [OutputRecord.mk (("s1").toList) (("MKPRK").toList) 65839484468] ∧
    main [[(("s1"), ("MKPRK"))]] 100000000000 350000000000 =
      main [[(("s1"), ("MKPRK"))]] 60000000000 350000000000 ∧
    65839484468 < 100000000000 :=
  ⟨rfl, rfl, by omega⟩

/-- C2 counterexample: contrary to the claim that an UnknownResidue failure is
fatal only for that peptide row, a run whose second sequence AUK contains the
unsupported symbol U aborts the whole run with an error: no Output Record is
emitted at all, not even for the valid peptide MKPRK of the first sequence. -/
theorem c2_counterexample :
    main [[(("s1"), ("MKPRK")), (("s2"), ("AUK"))]] 60000000000 350000000000 =
      Except.error (Err.unknownResidue ('U')) := rfl

/-- C2 amended: an UnknownResidue failure is fatal for the entire run, not just
for the affected peptide row: whenever some peptide of the run fails mass
computation, main returns an error and zero Output Records are emitted,
including rows of every other valid sequence. -/
theorem c2_unknown_residue_fatal_for_run (files : List (List (String × String)))
    (mm MM : Nat) (frss : List (List SequenceRecord)) (p : List Char) (e : Err)
    (hr : read_many files = Except.ok frss)
    (hp : p ∈ all_peptides frss.flatten)
    (hbad : get_peptide_data p = Except.error e) :
    is_ok (main files mm MM) = false := by
  apply main_fails_of_build files mm MM frss hr
  exact build_db_aux_fails _ _ _ p hp db_good_nil (by rw [hbad]; rfl)

/-- C2 witness: the amended theorem applied to the concrete run with sequences
MKPRK and AUK, whose peptide AUK fails with UnknownResidue on U. -/
theorem c2_witness :
    is_ok (main [[(("s1"), ("MKPRK")), (("s2"), ("AUK"))]]
      60000000000 350000000000) = false :=
  c2_unknown_residue_fatal_for_run [[(("s1"), ("MKPRK")), (("s2"), ("AUK"))]]
    60000000000 350000000000
    (frss_of [[(("s1"), ("MKPRK")), (("s2"), ("AUK"))]])
    (("AUK").toList) (Err.unknownResidue ('U')) rfl (by decide) rfl

/-- C3: the peptide cache computes each distinct peptide string at most once
per run (the invocation list of get_peptide_data has no duplicate), every
lookup of a stored peptide returns exactly the Peptide Data get_peptide_data
returns for that string (a pure function of the peptide string alone,
independent of the contributing sequence), and every peptide of every sequence
of the run is present in the cache. -/
theorem c3_cache_compute_once (records : List SequenceRecord) (db : Db)
    (calls : List (List Char)) (h : build_db records = Except.ok (db, calls)) :
    calls.Nodup ∧
    (∀ p d, db_lookup db p = some d → get_peptide_data p = Except.ok d) ∧
    (∀ p ∈ all_peptides records, (db_lookup db p).isSome = true) :=
  ⟨build_db_aux_calls_nodup _ _ _ _ _ List.nodup_nil (by simp) h,
    build_db_good records db calls h, build_db_complete records db calls h⟩

/-- C3 witness: the cache theorem applied to the concrete run whose two
identical sequences MKPRK share all three peptides; the call list is free of
duplicates even though each peptide occurs in both sequences. -/
theorem c3_witness :
    (calls_of (recs_of [[(("s1"), ("MKPRK")), (("s2"), ("MKPRK"))]])).Nodup := by
  have h : build_db (recs_of [[(("s1"), ("MKPRK")), (("s2"), ("MKPRK"))]]) =
      Except.ok (db_of (recs_of [[(("s1"), ("MKPRK")), (("s2"), ("MKPRK"))]]),
        calls_of (recs_of [[(("s1"), ("MKPRK")), (("s2"), ("MKPRK"))]])) := rfl
  exact (c3_cache_compute_once _ _ _ h).1

/-- C4: every emitted Output Record of any run has its mass strictly inside the
open interval between MIN_MASS (600.0) and MAX_MASS (3500.0): no record has
mass at most the lower bound, none has mass at least the upper bound. -/
theorem c4_strict_open_interval (files : List (List (String × String)))
    (mm MM : Nat) (out : List OutputRecord)
    (h : main files mm MM = Except.ok out) :
    ∀ r ∈ out, ¬(r.peptide_mass ≤ MIN_MASS) ∧ ¬(MAX_MASS ≤ r.peptide_mass) := by
  obtain ⟨frss, dbc, _, _, ha⟩ := main_parts files mm MM out h
  intro r hr
  have hb := assemble_bounds _ _ out ha r hr
  omega

/-- C4 witness: the filter theorem applied to the concrete run on MKPRK, whose
single emitted record carries mass 658.39484468. -/
theorem c4_witness :
    ¬((OutputRecord.mk (("s1").toList) (("MKPRK").toList)
        65839484468).peptide_mass ≤ MIN_MASS) ∧
    ¬(MAX_MASS ≤ (OutputRecord.mk (("s1").toList) (("MKPRK").toList)
        65839484468).peptide_mass) := by
  have h : main [[(("s1"), ("MKPRK"))]] 60000000000 350000000000 =
      Except.ok [OutputRecord.mk (("s1").toList) (("MKPRK").toList)
        65839484468] := rfl
  exact c4_strict_open_interval [[(("s1"), ("MKPRK"))]] 60000000000 350000000000
    _ h _ (List.mem_singleton.mpr rfl)

/-- C5: cleaving MKPRK with the trypsin rule and one missed cleavage yields
exactly the peptide set MKPR, K, MKPRK: the cut positions are the start
boundary, position 4 after the R (the cut after the K at position 2 being
suppressed by the following proline) and the end boundary, the elementary
fragments are MKPR and K, and the one-missed-cleavage expansion adds their
concatenation MKPRK. -/
theorem c5_mkprk_cleavage :
    cut_positions (("MKPRK").toList) = [0, 4, 5] ∧
    fragments (("MKPRK").toList) = [("MKPR").toList, ("K").toList] ∧
    (cleave (("MKPRK").toList) 1).toFinset =
      {("MKPR").toList, ("K").toList, ("MKPRK").toList} :=
  ⟨rfl, rfl, by decide⟩

/-- C6: for any peptide string whose mass passes the filter, the number of
emitted Output Records carrying that peptide equals the number of sequence
records whose peptide set contains it: duplicates arising from different
sequences each produce their own record, while within a single sequence a
peptide contributes at most one record, since each peptide set is free of
duplicates. -/
theorem c6_duplicates_not_collapsed (files : List (List (String × String)))
    (mm MM : Nat) (frss : List (List SequenceRecord)) (out : List OutputRecord)
    (p : List Char) (d : PeptideData)
    (hr : read_many files = Except.ok frss)
    (h : main files mm MM = Except.ok out)
    (hget : get_peptide_data p = Except.ok d)
    (h1 : MIN_MASS < d.mass) (h2 : d.mass < MAX_MASS) :
    out.countP (fun r => decide (r.peptide = p)) =
      (frss.flatten).countP (fun rec => decide (p ∈ rec.peptides)) := by
  obtain ⟨frss2, dbc, hr2, hb, ha⟩ := main_parts files mm MM out h
  rw [hr] at hr2
  injection hr2 with he
  subst he
  have hg := build_db_good frss.flatten dbc.1 dbc.2 hb
  have hcomp := build_db_complete frss.flatten dbc.1 dbc.2 hb
  have hdir := assemble_direct dbc.1 hg frss.flatten
    (fun r hrr q hq => hcomp q (by
      simp only [all_peptides, List.mem_flatMap]
      exact ⟨r, hrr, hq⟩))
  rw [ha] at hdir
  injection hdir with he2
  rw [he2]
  exact countP_flatMap_direct p d hget h1 h2 frss.flatten
    (read_many_peptides_nodup files frss hr)

/-- C6 witness: the counting theorem applied to the concrete run whose two
sequence records share the passing peptide MKPRK; the run emits exactly two
records for it, one per sequence. -/
theorem c6_witness :
    (out_of [[(("s1"), ("MKPRK")), (("s2"), ("MKPRK"))]]).countP
        (fun r => decide (r.peptide = ("MKPRK").toList)) =
      ((frss_of [[(("s1"), ("MKPRK")), (("s2"), ("MKPRK"))]]).flatten).countP
        (fun rec => decide (("MKPRK").toList ∈ rec.peptides)) ∧
    (out_of [[(("s1"), ("MKPRK")), (("s2"), ("MKPRK"))]]).countP
        (fun r => decide (r.peptide = ("MKPRK").toList)) = 2 := by
  constructor
  · exact c6_duplicates_not_collapsed
      [[(("s1"), ("MKPRK")), (("s2"), ("MKPRK"))]] 60000000000 350000000000
      (frss_of [[(("s1"), ("MKPRK")), (("s2"), ("MKPRK"))]])
      (out_of [[(("s1"), ("MKPRK")), (("s2"), ("MKPRK"))]])
      (("MKPRK").toList) (pd_of (("MKPRK").toList))
      rfl rfl rfl (by decide) (by decide)
  · decide

/-- C7: the emitted rows are exactly the per-sequence row blocks concatenated
in discovery order: the sequence records are the per-file record lists
flattened in command line order, and the output is their flatMap, so all rows
of one sequence record precede every row of a later record and files
contribute their rows in the order given. -/
theorem c7_row_order (files : List (List (String × String))) (mm MM : Nat)
    (frss : List (List SequenceRecord)) (out : List OutputRecord)
    (hr : read_many files = Except.ok frss)
    (h : main files mm MM = Except.ok out) :
    out = frss.flatten.flatMap
      (fun rec => rec.peptides.filterMap (direct_row rec.id)) := by
  obtain ⟨frss2, dbc, hr2, hb, ha⟩ := main_parts files mm MM out h
  rw [hr] at hr2
  injection hr2 with he
  subst he
  have hg := build_db_good frss.flatten dbc.1 dbc.2 hb
  have hcomp := build_db_complete frss.flatten dbc.1 dbc.2 hb
  have hdir := assemble_direct dbc.1 hg frss.flatten
    (fun r hrr q hq => hcomp q (by
      simp only [all_peptides, List.mem_flatMap]
      exact ⟨r, hrr, hq⟩))
  rw [ha] at hdir
  exact Except.ok.inj hdir

/-- C7 witness: the ordering theorem applied to a concrete two-file run; the
combined output lists the row of the first file before the row of the second
file, in command line order. -/
theorem c7_witness :
    out_of [[(("s1"), ("MKPRK"))], [(("s2"), ("MKPRK"))]] =
      ((frss_of [[(("s1"), ("MKPRK"))], [(("s2"), ("MKPRK"))]]).flatten).flatMap
        (fun rec => rec.peptides.filterMap (direct_row rec.id)) ∧
    out_of [[(("s1"), ("MKPRK"))], [(("s2"), ("MKPRK"))]] =
      [OutputRecord.mk (("s1").toList) (("MKPRK").toList) 65839484468,
       OutputRecord.mk (("s2").toList) (("MKPRK").toList) 65839484468] :=
  ⟨c7_row_order [[(("s1"), ("MKPRK"))], [(("s2"), ("MKPRK"))]]
      60000000000 350000000000
      (frss_of [[(("s1"), ("MKPRK"))], [(("s2"), ("MKPRK"))]])
      (out_of [[(("s1"), ("MKPRK"))], [(("s2"), ("MKPRK"))]]) rfl rfl,
    rfl⟩

/-- C8: the claim states that an empty input file list with no STDIN data
yields zero Output Records and exit code 0. The code contradicts this: the
fasta_files positional is declared with nargs plus, so argparse rejects an
empty positional list as a usage error and the process exits with status 2,
which is nonzero; the documented STDIN fallback does not exist. -/
theorem c8_empty_file_list_usage_error :
    parse_args [] = Except.error 2 ∧ (2 : Nat) ≠ 0 :=
  ⟨rfl, by omega⟩

/-- C9: a record whose description holds no non-whitespace character makes
read_fasta_sequences fail, because taking the first element of the empty token
list raises; and every record that is produced has a non-empty id equal to the
first whitespace-delimited token of its description. -/
theorem c9_blank_description (d s : String) :
    ((∀ c ∈ d.toList, is_py_space c = true) →
      mk_sequence_record d s = Except.error (Err.emptyDescription d)) ∧
    (∀ r, mk_sequence_record d s = Except.ok r →
      r.id ≠ [] ∧ (py_tokens d.toList).head? = some r.id) ∧
    (∀ file, (d, s) ∈ file → (∀ c ∈ d.toList, is_py_space c = true) →
      is_ok (read_fasta_sequences file) = false) := by
  refine ⟨?_, ?_, ?_⟩
  · intro hs
    simp only [mk_sequence_record, py_tokens_blank d.toList hs]
  · intro r h
    obtain ⟨_, hid, hhead⟩ := mk_record_spec d s r h
    exact ⟨hid, hhead⟩
  · intro file hmem hs
    apply read_fasta_fails file (d, s) hmem
    have h1 : mk_sequence_record d s = Except.error (Err.emptyDescription d) := by
      simp only [mk_sequence_record, py_tokens_blank d.toList hs]
    rw [h1]
    rfl

/-- C9 witness: the record theorem applied to a blank three-space description,
which fails, and to the description seq1 desc, whose produced record has the
non-empty id seq1, its first token. -/
theorem c9_witness :
    mk_sequence_record ("   ") ("MKPRK") =
      Except.error (Err.emptyDescription ("   ")) ∧
    (("seq1").toList ≠ [] ∧
      (py_tokens (("seq1 desc").toList)).head? = some (("seq1").toList)) := by
  constructor
  · exact (c9_blank_description ("   ") ("MKPRK")).1 (by decide)
  · exact (c9_blank_description ("seq1 desc") ("MKPRK")).2.1
      (SequenceRecord.mk (("MKPRK").toList) (("seq1").toList)
        (cleave (("MKPRK").toList) 1)) rfl

/-- C10: the pipeline is all-or-nothing with respect to the reading and mass
computation phases: if reading any input file fails, or if the mass of any
peptide of the run cannot be computed, main returns an error and zero output
rows are emitted (rows exist only inside a successful result). -/
theorem c10_no_output_on_failure (files : List (List (String × String)))
    (mm MM : Nat) :
    ((∃ f ∈ files, is_ok (read_fasta_sequences f) = false) ∨
      (∃ frss, read_many files = Except.ok frss ∧
        ∃ p ∈ all_peptides frss.flatten, is_ok (get_peptide_data p) = false)) →
    is_ok (main files mm MM) = false := by
  intro h
  rcases h with ⟨f, hf, hbad⟩ | ⟨frss, hr, p, hp, hbad⟩
  · exact main_fails_of_read files mm MM (read_many_fails files f hf hbad)
  · apply main_fails_of_build files mm MM frss hr
    exact build_db_aux_fails _ _ _ p hp db_good_nil hbad

/-- C10 witness: the all-or-nothing theorem applied to a concrete run whose
single file fails to read because its description is blank; the run emits
nothing. -/
theorem c10_witness :
    is_ok (main [[(("   "), ("MKPRK"))]] 60000000000 350000000000) = false :=
  c10_no_output_on_failure [[(("   "), ("MKPRK"))]] 60000000000 350000000000
    (Or.inl ⟨[(("   "), ("MKPRK"))], List.mem_singleton.mpr rfl, rfl⟩)

end ExtractPeptides
